import Mathlib

/-!
Verification development for the scoring and recommendation engine of the
AI pricing navigator repository (`utils/scoring.py`).

Numeric embedding: the Python code computes with IEEE floats; this
development idealises them as exact rationals (`ℚ`), which is the arithmetic
the spec describes.  Python's `round(x, n)` (round-half-to-even at `n`
decimal places) is embedded as `roundTo n` built on the half-even integer
rounding `rhe`.  Python's `int(x)` (truncation toward zero) is embedded as
`pyInt`.  Answer dictionaries are embedded as lookup functions
`String → Option String`; score dictionaries (which preserve insertion
order in Python) as association lists.
-/

/-- Round-half-to-even of a rational to an integer, the rounding mode of
Python's built-in `round`. -/
def rhe (q : ℚ) : ℤ :=
  if q - ⌊q⌋ < 1 / 2 then ⌊q⌋
  else if 1 / 2 < q - ⌊q⌋ then ⌊q⌋ + 1
  else if ⌊q⌋ % 2 = 0 then ⌊q⌋ else ⌊q⌋ + 1

/-- Python's `round(q, n)`: round-half-even at `n` decimal places. -/
def roundTo (n : ℕ) (q : ℚ) : ℚ :=
  (rhe (q * 10 ^ n) : ℚ) / 10 ^ n

/-- Python's `int(q)`: truncation toward zero. -/
def pyInt (q : ℚ) : ℤ :=
  if 0 ≤ q then ⌊q⌋ else -⌊-q⌋

/-!
Module 3 — Pricing Formula Generator (`utils/scoring.py`, lines 103-260).
Monetary quantities are rationals; `included_units` values are integral but
stored as rationals since Python keeps them in the same result dict.
The `explanation` strings are presentation text; Python's locale number
formatting (comma grouping, fixed decimals) is rendered here by the plain
rational printer, which no claim depends on.
-/

/-- Map deal size to estimated monthly units (`_get_monthly_units`). -/
def get_monthly_units (deal_size : ℚ) : ℚ :=
  if deal_size ≤ 5000 then 50
  else if deal_size ≤ 25000 then 200
  else if deal_size ≤ 100000 then 500
  else 1000

/-- Map customer segment to estimated seat count (`_get_seats`). -/
def get_seats (customer_segment : String) : ℚ :=
  if customer_segment = "smb" then 5
  else if customer_segment = "mid_market" then 25
  else if customer_segment = "enterprise" then 100
  else 25

/-- Result record of the pricing formula generator. -/
structure FormulaResult where
  model_name : String
  platform_fee_annual : ℚ
  platform_fee_monthly : ℚ
  included_units : ℚ
  overage_rate : ℚ
  effective_price_per_unit : ℚ
  gross_margin : ℚ
  explanation : String
deriving Repr, DecidableEq

/-- `_empty_result`: the all-zero/empty "cannot price" record. -/
def empty_result : FormulaResult :=
  { model_name := ""
    platform_fee_annual := 0
    platform_fee_monthly := 0
    included_units := 0
    overage_rate := 0
    effective_price_per_unit := 0
    gross_margin := 0
    explanation := "" }

/-- Plain rendering of a rational for explanation text. -/
def fmtQ (q : ℚ) : String := toString q

/-- `_hybrid_formula`. -/
def hybrid_formula (cost price _margin deal_size : ℚ) : FormulaResult :=
  let monthly_units := get_monthly_units deal_size
  let fee_monthly := roundTo 2 (cost * monthly_units * 2)
  let fee_annual := roundTo 2 (fee_monthly * 12)
  let included : ℚ := max 1 (pyInt (fee_annual / (price * (3 / 2))) : ℚ)
  let overage := roundTo 2 (price * (6 / 5))
  let annual_cost := cost * included
  let gm := if 0 < fee_annual
    then roundTo 1 ((fee_annual - annual_cost) / fee_annual * 100) else 0
  { model_name := "Hybrid (Base + Usage)"
    platform_fee_annual := fee_annual
    platform_fee_monthly := fee_monthly
    included_units := included
    overage_rate := overage
    effective_price_per_unit := roundTo 2 price
    gross_margin := gm
    explanation := "Charge $" ++ fmtQ fee_monthly ++ "/mo platform fee covering "
      ++ fmtQ included ++ " included units/yr. Additional units at $"
      ++ fmtQ overage ++ " each." }

/-- `_outcome_formula`. -/
def outcome_formula (_cost price margin deal_size : ℚ) : FormulaResult :=
  let min_commit := roundTo 2 (deal_size * (7 / 10))
  let estimated_outcomes : ℚ := max 1 (pyInt (min_commit / price) : ℚ)
  let fee_monthly := roundTo 2 (min_commit / 12)
  { model_name := "Outcome-based"
    platform_fee_annual := min_commit
    platform_fee_monthly := fee_monthly
    included_units := estimated_outcomes
    overage_rate := roundTo 2 price
    effective_price_per_unit := roundTo 2 price
    gross_margin := roundTo 1 margin
    explanation := "$" ++ fmtQ (roundTo 2 price) ++ " per outcome with $"
      ++ fmtQ min_commit ++ "/yr minimum commitment (~"
      ++ fmtQ estimated_outcomes ++ " outcomes). Same rate for additional outcomes." }

/-- `_workflow_formula`. -/
def workflow_formula (_cost price margin deal_size : ℚ) : FormulaResult :=
  let monthly_tasks := get_monthly_units deal_size
  let fee_monthly := roundTo 2 (monthly_tasks * price)
  let fee_annual := roundTo 2 (fee_monthly * 12)
  let annual_tasks := monthly_tasks * 12
  let discounted := roundTo 2 (price * (17 / 20))
  { model_name := "Workflow-based (Per Task)"
    platform_fee_annual := fee_annual
    platform_fee_monthly := fee_monthly
    included_units := annual_tasks
    overage_rate := discounted
    effective_price_per_unit := roundTo 2 price
    gross_margin := roundTo 1 margin
    explanation := "$" ++ fmtQ (roundTo 2 price) ++ " per task x "
      ++ fmtQ monthly_tasks ++ " tasks/mo = $" ++ fmtQ fee_monthly
      ++ "/mo. 15% volume discount at 2x volume ($" ++ fmtQ discounted ++ "/task)." }

/-- `_per_seat_formula`. -/
def per_seat_formula (cost _price _margin deal_size : ℚ) (segment : String) :
    FormulaResult :=
  let seats := get_seats segment
  let monthly_per_seat := roundTo 2 (deal_size / 12 / seats)
  let fee_monthly := roundTo 2 (monthly_per_seat * seats)
  let fee_annual := roundTo 2 (fee_monthly * 12)
  let extra_seat := roundTo 2 (monthly_per_seat * (3 / 2))
  let monthly_units := get_monthly_units deal_size
  let units_per_seat := monthly_units / seats
  let cost_per_seat := cost * units_per_seat
  let gm := if 0 < monthly_per_seat
    then roundTo 1 ((monthly_per_seat - cost_per_seat) / monthly_per_seat * 100)
    else 0
  { model_name := "Per-seat + Feature Tiers"
    platform_fee_annual := fee_annual
    platform_fee_monthly := fee_monthly
    included_units := seats
    overage_rate := extra_seat
    effective_price_per_unit := monthly_per_seat
    gross_margin := gm
    explanation := "$" ++ fmtQ monthly_per_seat ++ "/seat/month x "
      ++ fmtQ seats ++ " seats = $" ++ fmtQ fee_monthly
      ++ "/mo. Additional seats at $" ++ fmtQ extra_seat ++ "/mo each." }

/-- `generate_pricing_formula`: guard, base price, dispatch on formula type. -/
def generate_pricing_formula (cost_per_unit target_margin deal_size : ℚ)
    (formula_type : String) (customer_segment : String := "mid_market") :
    FormulaResult :=
  if cost_per_unit ≤ 0 ∨ 100 ≤ target_margin then empty_result
  else
    let price := cost_per_unit / (1 - target_margin / 100)
    if formula_type = "per_seat" then
      per_seat_formula cost_per_unit price target_margin deal_size customer_segment
    else if formula_type = "outcome" then
      outcome_formula cost_per_unit price target_margin deal_size
    else if formula_type = "workflow" then
      workflow_formula cost_per_unit price target_margin deal_size
    else
      hybrid_formula cost_per_unit price target_margin deal_size

/-!
Module 1 — Business Model Classifier (`utils/scoring.py`, lines 16-49).
-/

/-- Modelled from the spec: the repository file `data/questions.py`
(`MODULE_1_QUESTIONS`), which holds the static question/option coefficient
tables, is not among the given sources.  Per spec §3 an option carries a
machine value and a mapping from score-dimension name to numeric weight;
per §4.1 the dimensions are `copilot_score`, `agent_score`,
`service_score` (a dimension absent from an option's mapping contributes
weight 0). -/
structure M1Option where
  value : String
  copilotScore : ℚ
  agentScore : ℚ
  serviceScore : ℚ

/-- Modelled from the spec: a Module 1 question has an identifier and a
list of options (a question whose `options` entry is `None` in Python is
the empty list: both contribute nothing). -/
structure M1Question where
  id : String
  options : List M1Option

/-- The options matched by the answer set, in question order: for each
question, `answers.get(id)` then the first option with that value. -/
def m1Selected (table : List M1Question) (answers : String → Option String) :
    List M1Option :=
  table.filterMap fun q => (answers q.id).bind fun sel =>
    q.options.find? fun o => o.value = sel

/-- Accumulated `copilot_score` total. -/
def m1TotalCopilot (table : List M1Question) (answers : String → Option String) : ℚ :=
  ((m1Selected table answers).map (·.copilotScore)).sum

/-- Accumulated `agent_score` total. -/
def m1TotalAgent (table : List M1Question) (answers : String → Option String) : ℚ :=
  ((m1Selected table answers).map (·.agentScore)).sum

/-- Accumulated `service_score` total. -/
def m1TotalService (table : List M1Question) (answers : String → Option String) : ℚ :=
  ((m1Selected table answers).map (·.serviceScore)).sum

/-- `classify_business_model`.  `max(totals, key=totals.get)` scans the
insertion-ordered keys `copilot_score, agent_score, service_score` and
replaces the current best only on a strictly greater value. -/
def classify_business_model (table : List M1Question)
    (answers : String → Option String) : String × ℚ :=
  let c := m1TotalCopilot table answers
  let a := m1TotalAgent table answers
  let s := m1TotalService table answers
  let best_ca := if a > c then a else c
  let label := if s > best_ca then "AI-enabled Service"
    else if a > c then "Agent" else "Copilot"
  let top := if s > best_ca then s else best_ca
  let total := c + a + s
  (label, if 0 < total then roundTo 1 (top / total * 100) else 0)

/-!
Module 2 — Value Framework Mapper (`utils/scoring.py`, lines 56-96).
-/

/-- Modelled from the spec: a Module 2 option carries a machine value and
the contributions `x_score`, `y_score` (spec §3, e.g.
`x_score 1.0, y_score 0.5`). -/
structure M2Option where
  value : String
  xScore : ℚ
  yScore : ℚ

/-- Modelled from the spec: a Module 2 question, as for Module 1. -/
structure M2Question where
  id : String
  options : List M2Option

/-- The options matched by the answer set, in question order. -/
def m2Selected (table : List M2Question) (answers : String → Option String) :
    List M2Option :=
  table.filterMap fun q => (answers q.id).bind fun sel =>
    q.options.find? fun o => o.value = sel

/-- `calculate_value_position`: average the collected contributions
(0 when none), clamp to [-1, 1], pick the quadrant, round to 3 decimals. -/
def calculate_value_position (table : List M2Question)
    (answers : String → Option String) : ℚ × ℚ × String :=
  let sel := m2Selected table answers
  let xs := sel.map (·.xScore)
  let ys := sel.map (·.yScore)
  let x0 : ℚ := if xs = [] then 0 else xs.sum / xs.length
  let y0 : ℚ := if ys = [] then 0 else ys.sum / ys.length
  let x := max (-1) (min 1 x0)
  let y := max (-1) (min 1 y0)
  let quadrant := if 0 ≤ x ∧ 0 < y then "Revenue Engine"
    else if x < 0 ∧ 0 < y then "Efficiency Machine"
    else if 0 ≤ x ∧ y ≤ 0 then "Promise Zone"
    else "Danger Zone"
  (roundTo 3 x, roundTo 3 y, quadrant)

/-- The §4.2 quadrant decision table, as the spec states it, applied to a
pair of coordinates. -/
def quadrantOf (x y : ℚ) : String :=
  if 0 ≤ x ∧ 0 < y then "Revenue Engine"
  else if x < 0 ∧ 0 < y then "Efficiency Machine"
  else if 0 ≤ x ∧ y ≤ 0 then "Promise Zone"
  else "Danger Zone"

/-!
Module 4 — Health Check Scorer (`utils/scoring.py`, lines 267-294).
A Python dict preserves insertion order and has unique keys; it is
embedded as an association list of `(question_id, score)` pairs.
`sorted(scores, key=scores.get)` is Python's stable ascending sort of the
keys by their score, embedded as `List.insertionSort` on the pairs
(Mathlib's `insertionSort` inserts each earlier element in front of
equal-keyed later ones, giving the same stable order as Timsort). -/

/-- Comparison used to sort health scores: by the score component. -/
def scoreLe (p q : String × ℤ) : Prop := p.2 ≤ q.2

instance : DecidableRel scoreLe := fun p q => inferInstanceAs (Decidable (p.2 ≤ q.2))

instance : IsTotal (String × ℤ) scoreLe := ⟨fun p q => le_total p.2 q.2⟩

instance : IsTrans (String × ℤ) scoreLe := ⟨fun _ _ _ h1 h2 => le_trans h1 h2⟩

/-- The stable ascending ordering of the score entries. -/
def healthSorted (scores : List (String × ℤ)) : List (String × ℤ) :=
  List.insertionSort scoreLe scores

/-- `calculate_health_score`. -/
def calculate_health_score (scores : List (String × ℤ)) : ℚ × String × List String :=
  let total : ℤ := (scores.map (·.2)).sum
  let max_possible : ℤ := scores.length * 5
  let percentage : ℚ := if 0 < max_possible
    then roundTo 1 ((total : ℚ) / (max_possible : ℚ) * 100) else 0
  let label := if 85 ≤ percentage then "Advanced"
    else if 70 ≤ percentage then "Strong"
    else if 50 ≤ percentage then "Developing"
    else "Early Stage"
  let top_3 := ((healthSorted scores).map (·.1)).take 3
  (percentage, label, top_3)

/-!
Rounding lemmas.
-/

theorem rhe_intCast (n : ℤ) : rhe (n : ℚ) = n := by
  unfold rhe
  simp

theorem floor_le_rhe (q : ℚ) : ⌊q⌋ ≤ rhe q := by
  unfold rhe
  split_ifs <;> omega

theorem rhe_le_floor_add_one (q : ℚ) : rhe q ≤ ⌊q⌋ + 1 := by
  unfold rhe
  split_ifs <;> omega

theorem rhe_mono : Monotone rhe := by
  intro a b hab
  have hf : ⌊a⌋ ≤ ⌊b⌋ := Int.floor_le_floor hab
  rcases lt_or_eq_of_le hf with hlt | heq
  · calc rhe a ≤ ⌊a⌋ + 1 := rhe_le_floor_add_one a
      _ ≤ ⌊b⌋ := by omega
      _ ≤ rhe b := floor_le_rhe b
  · have hra : a - ⌊a⌋ ≤ b - ⌊b⌋ := by
      rw [← heq]; linarith
    unfold rhe
    rw [← heq]
    split_ifs <;> first | omega | linarith

theorem rhe_le_of_le_int (q : ℚ) (n : ℤ) (h : q ≤ (n : ℚ)) : rhe q ≤ n := by
  have := rhe_mono h
  rwa [rhe_intCast] at this

theorem int_le_rhe_of_le (q : ℚ) (n : ℤ) (h : (n : ℚ) ≤ q) : n ≤ rhe q := by
  have := rhe_mono h
  rwa [rhe_intCast] at this

theorem roundTo_mono (n : ℕ) : Monotone (roundTo n) := by
  intro a b hab
  unfold roundTo
  have hpow : (0 : ℚ) < 10 ^ n := by positivity
  apply div_le_div_of_nonneg_right _ hpow.le
  exact_mod_cast rhe_mono (mul_le_mul_of_nonneg_right hab (le_of_lt hpow))

theorem roundTo_nonneg (n : ℕ) (q : ℚ) (h : 0 ≤ q) : 0 ≤ roundTo n q := by
  unfold roundTo
  have hpow : (0 : ℚ) < 10 ^ n := by positivity
  apply div_nonneg _ (le_of_lt hpow)
  have : (0 : ℤ) ≤ rhe (q * 10 ^ n) := by
    apply int_le_rhe_of_le
    push_cast
    positivity
  exact_mod_cast this

theorem roundTo_nonpos (n : ℕ) (q : ℚ) (h : q ≤ 0) : roundTo n q ≤ 0 := by
  unfold roundTo
  have hpow : (0 : ℚ) < 10 ^ n := by positivity
  apply div_nonpos_of_nonpos_of_nonneg _ (le_of_lt hpow)
  have : rhe (q * 10 ^ n) ≤ (0 : ℤ) := by
    apply rhe_le_of_le_int
    push_cast
    exact mul_nonpos_of_nonpos_of_nonneg h (le_of_lt hpow)
  exact_mod_cast this

/-!
Helper lemmas: rounding values, guard/dispatch behaviour of the formula
generator.
-/

theorem roundTo_zero (n : ℕ) : roundTo n 0 = 0 := by
  unfold roundTo
  rw [show (0 : ℚ) * 10 ^ n = ((0 : ℤ) : ℚ) by norm_num, rhe_intCast]
  norm_num

theorem roundTo_one_hundred : roundTo 1 (100 : ℚ) = 100 := by
  unfold roundTo
  rw [show (100 : ℚ) * 10 ^ 1 = ((1000 : ℤ) : ℚ) by norm_num, rhe_intCast]
  norm_num

/-- A 2-decimal value multiplied by 12 is rounded to 2 decimals exactly. -/
theorem roundTo_roundTo_mul_12 (q : ℚ) :
    roundTo 2 (roundTo 2 q * 12) = roundTo 2 q * 12 := by
  unfold roundTo
  rw [show ((rhe (q * 10 ^ 2) : ℚ) / 10 ^ 2 * 12) * 10 ^ 2 = ((12 * rhe (q * 10 ^ 2) : ℤ) : ℚ)
    by push_cast; ring, rhe_intCast]
  push_cast
  ring

theorem generate_guard (cost margin ds : ℚ) (ft seg : String)
    (h : cost ≤ 0 ∨ 100 ≤ margin) :
    generate_pricing_formula cost margin ds ft seg = empty_result := by
  unfold generate_pricing_formula
  rw [if_pos h]

theorem generate_hybrid (cost margin ds : ℚ) (seg : String)
    (h1 : 0 < cost) (h2 : margin < 100) :
    generate_pricing_formula cost margin ds "hybrid" seg =
      hybrid_formula cost (cost / (1 - margin / 100)) margin ds := by
  unfold generate_pricing_formula
  rw [if_neg (by push_neg; exact ⟨h1, h2⟩), if_neg (by decide), if_neg (by decide),
    if_neg (by decide)]

theorem generate_workflow (cost margin ds : ℚ) (seg : String)
    (h1 : 0 < cost) (h2 : margin < 100) :
    generate_pricing_formula cost margin ds "workflow" seg =
      workflow_formula cost (cost / (1 - margin / 100)) margin ds := by
  unfold generate_pricing_formula
  rw [if_neg (by push_neg; exact ⟨h1, h2⟩), if_neg (by decide), if_neg (by decide),
    if_pos (by decide)]

theorem generate_per_seat (cost margin ds : ℚ) (seg : String)
    (h1 : 0 < cost) (h2 : margin < 100) :
    generate_pricing_formula cost margin ds "per_seat" seg =
      per_seat_formula cost (cost / (1 - margin / 100)) margin ds seg := by
  unfold generate_pricing_formula
  rw [if_neg (by push_neg; exact ⟨h1, h2⟩), if_pos (by decide)]

theorem base_price_pos (cost margin : ℚ) (h1 : 0 < cost) (h2 : margin < 100) :
    0 < cost / (1 - margin / 100) := by
  apply div_pos h1
  linarith

/-- Claim C3: when `cost_per_unit ≤ 0` or `target_margin ≥ 100`,
`generate_pricing_formula` returns the all-zero/empty result (numeric
fields 0, `model_name` and `explanation` empty) for every formula type and
segment; in particular `generate_pricing_formula 0 65 15000 "hybrid"` is
the all-zero result.  (The embedding is a total function, so no exception
can arise.) -/
theorem claim_C3 (cost margin ds : ℚ) (ft seg : String)
    (h : cost ≤ 0 ∨ 100 ≤ margin) :
    generate_pricing_formula cost margin ds ft seg = empty_result ∧
    generate_pricing_formula 0 65 15000 "hybrid" = empty_result ∧
    empty_result.model_name = "" ∧
    empty_result.platform_fee_annual = 0 ∧
    empty_result.platform_fee_monthly = 0 ∧
    empty_result.included_units = 0 ∧
    empty_result.overage_rate = 0 ∧
    empty_result.effective_price_per_unit = 0 ∧
    empty_result.gross_margin = 0 ∧
    empty_result.explanation = "" :=
  ⟨generate_guard cost margin ds ft seg h,
   generate_guard 0 65 15000 "hybrid" "mid_market" (Or.inl le_rfl),
   rfl, rfl, rfl, rfl, rfl, rfl, rfl, rfl⟩

theorem claim_C3_witness : generate_pricing_formula 0 65 15000 "hybrid" = empty_result :=
  (claim_C3 0 65 15000 "hybrid" "mid_market" (Or.inl le_rfl)).1

/-- Claim C4: the hybrid branch derives monthly units from the step table,
sets the monthly fee to `cost × units × 2` (at 2 decimals) and the annual
fee to exactly 12 × the monthly fee; at
`(1.0, 65, 25000, "hybrid")` the annual platform fee is 4800, inside
`[2000, 20000]`. -/
theorem claim_C4 (cost margin ds : ℚ) (seg : String)
    (h1 : 0 < cost) (h2 : margin < 100) :
    (generate_pricing_formula cost margin ds "hybrid" seg).platform_fee_monthly
      = roundTo 2 (cost * get_monthly_units ds * 2) ∧
    (generate_pricing_formula cost margin ds "hybrid" seg).platform_fee_annual
      = 12 * (generate_pricing_formula cost margin ds "hybrid" seg).platform_fee_monthly ∧
    (ds ≤ 5000 → get_monthly_units ds = 50) ∧
    (5000 < ds → ds ≤ 25000 → get_monthly_units ds = 200) ∧
    (25000 < ds → ds ≤ 100000 → get_monthly_units ds = 500) ∧
    (100000 < ds → get_monthly_units ds = 1000) ∧
    (generate_pricing_formula 1 65 25000 "hybrid").platform_fee_annual = 4800 ∧
    (2000 : ℚ) ≤ (generate_pricing_formula 1 65 25000 "hybrid").platform_fee_annual ∧
    (generate_pricing_formula 1 65 25000 "hybrid").platform_fee_annual ≤ 20000 := by
  have hconc : (generate_pricing_formula 1 65 25000 "hybrid").platform_fee_annual = 4800 := by
    rw [generate_hybrid 1 65 25000 "mid_market" (by norm_num) (by norm_num)]
    unfold hybrid_formula get_monthly_units roundTo rhe
    norm_num
  rw [generate_hybrid cost margin ds seg h1 h2]
  refine ⟨?_, ?_, ?_, ?_, ?_, ?_, hconc, by rw [hconc]; norm_num, by rw [hconc]; norm_num⟩
  · simp only [hybrid_formula]
  · simp only [hybrid_formula]
    rw [roundTo_roundTo_mul_12]
    ring
  · intro h; unfold get_monthly_units; rw [if_pos h]
  · intro ha hb; unfold get_monthly_units; rw [if_neg (by linarith), if_pos hb]
  · intro ha hb
    unfold get_monthly_units
    rw [if_neg (by linarith), if_neg (by linarith), if_pos hb]
  · intro ha
    unfold get_monthly_units
    rw [if_neg (by linarith), if_neg (by linarith), if_neg (by linarith)]

theorem claim_C4_witness :
    (generate_pricing_formula 1 65 25000 "hybrid").platform_fee_annual = 4800 :=
  (claim_C4 1 65 25000 "mid_market" (by norm_num) (by norm_num)).2.2.2.2.2.2.1

/-- Claim C2, counterexample: at `cost_per_unit = 0.001`,
`target_margin = 65 < 100`, `deal_size = 15000`, the workflow overage rate
is NOT strictly less than the effective price per unit (2-decimal rounding
collapses both to 0). -/
theorem claim_C2_counterexample :
    ¬((generate_pricing_formula (1/1000) 65 15000 "workflow").overage_rate <
      (generate_pricing_formula (1/1000) 65 15000 "workflow").effective_price_per_unit) ∧
    (0 : ℚ) < 1/1000 ∧ (65 : ℚ) < 100 := by
  refine ⟨?_, by norm_num, by norm_num⟩
  rw [generate_workflow (1/1000) 65 15000 "mid_market" (by norm_num) (by norm_num)]
  unfold workflow_formula get_monthly_units roundTo rhe
  norm_num

/-- Claim C2 (amended): for every `cost_per_unit > 0`, `target_margin < 100`
and `deal_size`, the workflow formula's `overage_rate` is at most (not
always strictly below) its `effective_price_per_unit`. -/
theorem claim_C2_amended (cost margin ds : ℚ) (seg : String)
    (h1 : 0 < cost) (h2 : margin < 100) :
    (generate_pricing_formula cost margin ds "workflow" seg).overage_rate ≤
    (generate_pricing_formula cost margin ds "workflow" seg).effective_price_per_unit := by
  rw [generate_workflow cost margin ds seg h1 h2]
  simp only [workflow_formula]
  apply roundTo_mono
  have hp := base_price_pos cost margin h1 h2
  linarith

theorem claim_C2_witness :
    (generate_pricing_formula 1 65 15000 "workflow").overage_rate ≤
    (generate_pricing_formula 1 65 15000 "workflow").effective_price_per_unit :=
  claim_C2_amended 1 65 15000 "mid_market" (by norm_num) (by norm_num)

/-- Claim C10: past the guard the base price is strictly positive, the
seat count divisor is always one of 5, 25, 100 (never zero), and the two
recomputed-margin divisions are guarded: a non-positive divisor yields
gross margin 0 instead of a division.  (Every embedded function is total
by construction.) -/
theorem claim_C10 (cost margin ds : ℚ) (seg : String)
    (h1 : 0 < cost) (h2 : margin < 100) :
    0 < cost / (1 - margin / 100) ∧
    (get_seats seg = 5 ∨ get_seats seg = 25 ∨ get_seats seg = 100) ∧
    get_seats seg ≠ 0 ∧
    (roundTo 2 (ds / 12 / get_seats seg) ≤ 0 →
      (generate_pricing_formula cost margin ds "per_seat" seg).gross_margin = 0) ∧
    (roundTo 2 (roundTo 2 (cost * get_monthly_units ds * 2) * 12) ≤ 0 →
      (generate_pricing_formula cost margin ds "hybrid" seg).gross_margin = 0) := by
  have hseats : get_seats seg = 5 ∨ get_seats seg = 25 ∨ get_seats seg = 100 := by
    unfold get_seats
    split_ifs <;> simp
  refine ⟨base_price_pos cost margin h1 h2, hseats, ?_, ?_, ?_⟩
  · rcases hseats with h | h | h <;> rw [h] <;> norm_num
  · intro hle
    rw [generate_per_seat cost margin ds seg h1 h2]
    simp only [per_seat_formula]
    rw [if_neg (not_lt.mpr hle)]
  · intro hle
    rw [generate_hybrid cost margin ds seg h1 h2]
    simp only [hybrid_formula]
    rw [if_neg (not_lt.mpr hle)]

theorem claim_C10_witness :
    get_seats "smb" = 5 ∨ get_seats "smb" = 25 ∨ get_seats "smb" = 100 :=
  (claim_C10 1 65 15000 "smb" (by norm_num) (by norm_num)).2.1

/-- Claim C5: for every non-empty score map the percentage is
`round(100 × sum / (5 × count), 1)` and the label follows the inclusive
lower bounds 85/70/50; all-5 over 10 questions gives (100, "Advanced") and
all-1 gives (20, "Early Stage"). -/
theorem claim_C5 (scores : List (String × ℤ)) (h : scores ≠ []) :
    ((calculate_health_score scores).1
      = roundTo 1 (100 * (((scores.map (·.2)).sum : ℤ) : ℚ) / (5 * scores.length)) ∧
    (85 ≤ (calculate_health_score scores).1 →
      (calculate_health_score scores).2.1 = "Advanced") ∧
    (70 ≤ (calculate_health_score scores).1 → (calculate_health_score scores).1 < 85 →
      (calculate_health_score scores).2.1 = "Strong") ∧
    (50 ≤ (calculate_health_score scores).1 → (calculate_health_score scores).1 < 70 →
      (calculate_health_score scores).2.1 = "Developing") ∧
    ((calculate_health_score scores).1 < 50 →
      (calculate_health_score scores).2.1 = "Early Stage")) ∧
    (calculate_health_score
      [("m4_q1", 5), ("m4_q2", 5), ("m4_q3", 5), ("m4_q4", 5), ("m4_q5", 5),
       ("m4_q6", 5), ("m4_q7", 5), ("m4_q8", 5), ("m4_q9", 5), ("m4_q10", 5)]).1 = 100 ∧
    (calculate_health_score
      [("m4_q1", 5), ("m4_q2", 5), ("m4_q3", 5), ("m4_q4", 5), ("m4_q5", 5),
       ("m4_q6", 5), ("m4_q7", 5), ("m4_q8", 5), ("m4_q9", 5), ("m4_q10", 5)]).2.1
      = "Advanced" ∧
    (calculate_health_score
      [("m4_q1", 1), ("m4_q2", 1), ("m4_q3", 1), ("m4_q4", 1), ("m4_q5", 1),
       ("m4_q6", 1), ("m4_q7", 1), ("m4_q8", 1), ("m4_q9", 1), ("m4_q10", 1)]).1 = 20 ∧
    (calculate_health_score
      [("m4_q1", 1), ("m4_q2", 1), ("m4_q3", 1), ("m4_q4", 1), ("m4_q5", 1),
       ("m4_q6", 1), ("m4_q7", 1), ("m4_q8", 1), ("m4_q9", 1), ("m4_q10", 1)]).2.1
      = "Early Stage" := by
  constructor
  · have hlen : 0 < scores.length := List.length_pos.mpr h
    have hmax : (0 : ℤ) < scores.length * 5 := by positivity
    unfold calculate_health_score
    simp only [if_pos hmax]
    refine ⟨?_, ?_, ?_, ?_, ?_⟩
    · congr 1
      push_cast
      ring
    · intro h85
      rw [if_pos h85]
    · intro h70 h85
      rw [if_neg (not_le.mpr h85), if_pos h70]
    · intro h50 h70
      rw [if_neg (by linarith), if_neg (not_le.mpr h70), if_pos h50]
    · intro h50
      rw [if_neg (by linarith), if_neg (by linarith), if_neg (not_le.mpr h50)]
  · refine ⟨?_, ?_, ?_, ?_⟩ <;>
      (unfold calculate_health_score roundTo rhe; norm_num)

theorem claim_C5_witness :
    (calculate_health_score
      [("m4_q1", 5), ("m4_q2", 5), ("m4_q3", 5), ("m4_q4", 5), ("m4_q5", 5),
       ("m4_q6", 5), ("m4_q7", 5), ("m4_q8", 5), ("m4_q9", 5), ("m4_q10", 5)]).1 = 100 :=
  (claim_C5 [("m4_q1", 5)] (by decide)).2.1

/-- Stable insertion keeps the relative order of equal-score entries:
filtering one score value commutes with `orderedInsert`. -/
theorem filter_orderedInsert (v : ℤ) (a : String × ℤ) (l : List (String × ℤ)) :
    (List.orderedInsert scoreLe a l).filter (fun p => decide (p.2 = v)) =
      if a.2 = v then a :: l.filter (fun p => decide (p.2 = v))
      else l.filter (fun p => decide (p.2 = v)) := by
  induction l with
  | nil =>
    by_cases hav : a.2 = v <;> simp [List.orderedInsert, List.filter, hav]
  | cons b t ih =>
    by_cases hr : scoreLe a b
    · by_cases hav : a.2 = v <;> simp [List.orderedInsert, hr, List.filter_cons, hav]
    · have hb : b.2 < a.2 := lt_of_not_le hr
      by_cases hav : a.2 = v
      · have hbv : ¬(b.2 = v) := by
          rw [← hav]; exact ne_of_lt hb
        simp [List.orderedInsert, hr, List.filter_cons, hav, hbv, ih]
      · simp [List.orderedInsert, hr, List.filter_cons, hav, ih]

/-- The health-score sort is stable: filtering any single score value from
the sorted list gives exactly the same subsequence, in the same order, as
filtering the input. -/
theorem filter_healthSorted (v : ℤ) (l : List (String × ℤ)) :
    (healthSorted l).filter (fun p => decide (p.2 = v))
      = l.filter (fun p => decide (p.2 = v)) := by
  unfold healthSorted
  induction l with
  | nil => rfl
  | cons a t ih =>
    rw [List.insertionSort, filter_orderedInsert]
    by_cases hav : a.2 = v <;> simp [List.filter_cons, hav, ih]

/-- Claim C6: `priority_ids` is the first 3 identifiers of a stable
ascending-by-score ordering of the entries (a permutation, sorted by
score, with ties in first-seen order); on the claimed concrete input the
priorities are `m4_q4, m4_q2, m4_q7`. -/
theorem claim_C6 (scores : List (String × ℤ)) (v : ℤ) :
    (calculate_health_score scores).2.2 = ((healthSorted scores).map (·.1)).take 3 ∧
    (healthSorted scores).Perm scores ∧
    List.Sorted scoreLe (healthSorted scores) ∧
    (healthSorted scores).filter (fun p => decide (p.2 = v))
      = scores.filter (fun p => decide (p.2 = v)) ∧
    (calculate_health_score
      [("m4_q1", 4), ("m4_q2", 2), ("m4_q3", 5), ("m4_q4", 1), ("m4_q5", 3),
       ("m4_q6", 3), ("m4_q7", 2), ("m4_q8", 4), ("m4_q9", 3), ("m4_q10", 5)]).2.2
      = ["m4_q4", "m4_q2", "m4_q7"] :=
  ⟨rfl, List.perm_insertionSort scoreLe scores, List.sorted_insertionSort scoreLe scores,
   filter_healthSorted v scores, by decide⟩

/-- With an empty answer set nothing matches, for any question table. -/
theorem m1Selected_none (table : List M1Question) :
    m1Selected table (fun _ => none) = [] := by
  unfold m1Selected
  induction table with
  | nil => rfl
  | cons q t ih => simp [ih]

/-- With an empty answer set nothing matches, for any question table. -/
theorem m2Selected_none (table : List M2Question) :
    m2Selected table (fun _ => none) = [] := by
  unfold m2Selected
  induction table with
  | nil => rfl
  | cons q t ih => simp [ih]

/-- On the empty answer set every dimension total is zero and the Python
`max` keeps its first key, so the classifier returns ("Copilot", 0). -/
theorem classify_none (table : List M1Question) :
    classify_business_model table (fun _ => none) = ("Copilot", 0) := by
  unfold classify_business_model m1TotalCopilot m1TotalAgent m1TotalService
  rw [m1Selected_none]
  norm_num

/-- On the empty answer set the value mapper returns (0, 0, Promise Zone). -/
theorem value_position_none (table : List M2Question) :
    calculate_value_position table (fun _ => none) = (0, 0, "Promise Zone") := by
  unfold calculate_value_position
  rw [m2Selected_none]
  norm_num [roundTo_zero]

/-- Claim C8: an empty answer set raises nothing and degrades to the
defaults: zero classifier confidence, position (0, 0) in the Promise
Zone — for every static question table. -/
theorem claim_C8 (t1 : List M1Question) (t2 : List M2Question) :
    (classify_business_model t1 (fun _ => none)).2 = 0 ∧
    calculate_value_position t2 (fun _ => none) = (0, 0, "Promise Zone") :=
  ⟨by rw [classify_none], value_position_none t2⟩

/-- Claim C9: ties for the maximal accumulated total resolve in the
insertion order of the totals dict (copilot, then agent, then service):
the copilot label wins whenever its total is ≥ both others, agent wins
when strictly above copilot and ≥ service, service only when strictly
above both; in particular the empty answer set returns ("Copilot", 0). -/
theorem claim_C9 (table : List M1Question) (answers : String → Option String) :
    (m1TotalAgent table answers ≤ m1TotalCopilot table answers →
     m1TotalService table answers ≤ m1TotalCopilot table answers →
     (classify_business_model table answers).1 = "Copilot") ∧
    (m1TotalCopilot table answers < m1TotalAgent table answers →
     m1TotalService table answers ≤ m1TotalAgent table answers →
     (classify_business_model table answers).1 = "Agent") ∧
    (m1TotalCopilot table answers < m1TotalService table answers →
     m1TotalAgent table answers < m1TotalService table answers →
     (classify_business_model table answers).1 = "AI-enabled Service") ∧
    classify_business_model table (fun _ => none) = ("Copilot", 0) := by
  refine ⟨?_, ?_, ?_, classify_none table⟩
  · intro ha hs
    simp only [classify_business_model]
    rw [if_neg (not_lt.mpr ha), if_neg (not_lt.mpr hs), if_neg (not_lt.mpr ha)]
  · intro hc hs
    simp only [classify_business_model]
    rw [if_pos hc, if_neg (not_lt.mpr hs), if_pos hc]
  · intro hc ha
    simp only [classify_business_model]
    by_cases hac : m1TotalCopilot table answers < m1TotalAgent table answers
    · rw [if_pos hac, if_pos ha]
    · rw [if_neg hac, if_pos hc]

theorem claim_C9_witness :
    (classify_business_model [] (fun _ => none)).1 = "Copilot" :=
  (claim_C9 [] (fun _ => none)).1
    (by norm_num [m1TotalAgent, m1TotalCopilot, m1Selected])
    (by norm_num [m1TotalService, m1TotalCopilot, m1Selected])

/-- Every matched option comes from some question's option list. -/
theorem mem_m1Selected {table : List M1Question} {answers : String → Option String}
    {o : M1Option} (ho : o ∈ m1Selected table answers) :
    ∃ q ∈ table, o ∈ q.options := by
  unfold m1Selected at ho
  rw [List.mem_filterMap] at ho
  obtain ⟨q, hq, hf⟩ := ho
  refine ⟨q, hq, ?_⟩
  obtain ⟨sel, hsel, hfind⟩ := Option.bind_eq_some.mp hf
  exact List.mem_of_find?_eq_some hfind

/-- Every matched option comes from some question's option list. -/
theorem mem_m2Selected {table : List M2Question} {answers : String → Option String}
    {o : M2Option} (ho : o ∈ m2Selected table answers) :
    ∃ q ∈ table, o ∈ q.options := by
  unfold m2Selected at ho
  rw [List.mem_filterMap] at ho
  obtain ⟨q, hq, hf⟩ := ho
  refine ⟨q, hq, ?_⟩
  obtain ⟨sel, hsel, hfind⟩ := Option.bind_eq_some.mp hf
  exact List.mem_of_find?_eq_some hfind

/-- Claim C7: for every answer set (and any table whose modelled weights
are nonnegative, per the spec's coefficient examples and the §8 property
this claim restates), the classifier label is one of the three fixed model
names and the confidence lies in [0, 100]. -/
theorem claim_C7 (table : List M1Question) (answers : String → Option String)
    (hw : ∀ q ∈ table, ∀ o ∈ q.options,
      0 ≤ o.copilotScore ∧ 0 ≤ o.agentScore ∧ 0 ≤ o.serviceScore) :
    ((classify_business_model table answers).1 = "Copilot" ∨
     (classify_business_model table answers).1 = "Agent" ∨
     (classify_business_model table answers).1 = "AI-enabled Service") ∧
    0 ≤ (classify_business_model table answers).2 ∧
    (classify_business_model table answers).2 ≤ 100 := by
  have hsel : ∀ o ∈ m1Selected table answers,
      0 ≤ o.copilotScore ∧ 0 ≤ o.agentScore ∧ 0 ≤ o.serviceScore := by
    intro o ho
    obtain ⟨q, hq, hoq⟩ := mem_m1Selected ho
    exact hw q hq o hoq
  have hc : 0 ≤ m1TotalCopilot table answers := by
    apply List.sum_nonneg
    intro x hx
    obtain ⟨o, ho, rfl⟩ := List.mem_map.mp hx
    exact (hsel o ho).1
  have ha : 0 ≤ m1TotalAgent table answers := by
    apply List.sum_nonneg
    intro x hx
    obtain ⟨o, ho, rfl⟩ := List.mem_map.mp hx
    exact (hsel o ho).2.1
  have hs : 0 ≤ m1TotalService table answers := by
    apply List.sum_nonneg
    intro x hx
    obtain ⟨o, ho, rfl⟩ := List.mem_map.mp hx
    exact (hsel o ho).2.2
  refine ⟨?_, ?_⟩
  · simp only [classify_business_model]
    split_ifs <;> simp
  · simp only [classify_business_model]
    set c := m1TotalCopilot table answers with hcdef
    set a := m1TotalAgent table answers with hadef
    set s := m1TotalService table answers with hsdef
    by_cases htot : 0 < c + a + s
    · rw [if_pos htot]
      have htop0 : 0 ≤ (if s > if a > c then a else c then s else if a > c then a else c) := by
        split_ifs <;> assumption
      have htople : (if s > if a > c then a else c then s else if a > c then a else c)
          ≤ c + a + s := by
        split_ifs <;> linarith
      constructor
      · apply roundTo_nonneg
        positivity
      · calc roundTo 1 ((if s > if a > c then a else c then s else if a > c then a else c)
              / (c + a + s) * 100)
            ≤ roundTo 1 100 := by
              apply roundTo_mono
              rw [div_mul_eq_mul_div, div_le_iff₀ htot]
              linarith
          _ = 100 := roundTo_one_hundred
    · rw [if_neg htot]
      norm_num

theorem claim_C7_witness :
    0 ≤ (classify_business_model [] (fun _ => none)).2 ∧
    (classify_business_model [] (fun _ => none)).2 ≤ 100 :=
  (claim_C7 [] (fun _ => none) (by simp)).2

/-- Rounding to 3 decimals is exact on multiples of 1/1000. -/
theorem roundTo3_thousandth (k : ℤ) : roundTo 3 ((k : ℚ) / 1000) = (k : ℚ) / 1000 := by
  unfold roundTo
  rw [show ((k : ℚ) / 1000 * 10 ^ 3) = ((k : ℤ) : ℚ) by norm_num, rhe_intCast]
  norm_num

theorem roundTo3_one : roundTo 3 (1 : ℚ) = 1 := by
  have h := roundTo3_thousandth 1000
  norm_num at h
  exact h

theorem roundTo3_neg_one : roundTo 3 (-1 : ℚ) = -1 := by
  have h := roundTo3_thousandth (-1000)
  norm_num at h
  exact h

/-- A sum of integer multiples of 1/100 is an integer multiple of 1/100. -/
theorem sum_hundredths {l : List ℚ} (h : ∀ x ∈ l, ∃ k : ℤ, x = (k : ℚ) / 100) :
    ∃ K : ℤ, l.sum = (K : ℚ) / 100 := by
  induction l with
  | nil => exact ⟨0, by simp⟩
  | cons a t ih =>
    obtain ⟨k, hk⟩ := h a (List.mem_cons_self a t)
    obtain ⟨K, hK⟩ := ih fun x hx => h x (List.mem_cons_of_mem a hx)
    refine ⟨k + K, ?_⟩
    rw [List.sum_cons, hk, hK]
    push_cast
    ring

/-- The average of at most 10 hundredth-multiples is either zero or at
least 1/1000 away from zero. -/
theorem avg_hundredths_dichotomy (l : List ℚ)
    (h : ∀ x ∈ l, ∃ k : ℤ, x = (k : ℚ) / 100) (hlen : l.length ≤ 10) :
    (if l = [] then (0 : ℚ) else l.sum / l.length) = 0 ∨
    (1 / 1000 : ℚ) ≤ |if l = [] then (0 : ℚ) else l.sum / l.length| := by
  by_cases he : l = []
  · left
    rw [if_pos he]
  · rw [if_neg he]
    by_cases h0 : l.sum / l.length = 0
    · left
      exact h0
    · right
      obtain ⟨K, hK⟩ := sum_hundredths h
      have hn : (0 : ℚ) < l.length := by
        exact_mod_cast List.length_pos.mpr he
      have hnle : (l.length : ℚ) ≤ 10 := by exact_mod_cast hlen
      have hKne : (K : ℚ) ≠ 0 := by
        intro hzero
        apply h0
        rw [hK, hzero]
        simp
      have hKint : K ≠ 0 := fun hz => hKne (by rw [hz]; norm_num)
      have h1K : (1 : ℚ) ≤ |(K : ℚ)| := by
        rw [← Int.cast_abs]
        exact_mod_cast Int.one_le_abs hKint
      rw [hK, abs_div, abs_div]
      rw [abs_of_nonneg (by norm_num : (0:ℚ) ≤ 100), abs_of_pos hn]
      calc (1 / 1000 : ℚ) = 1 / 100 / 10 := by norm_num
        _ ≤ 1 / 100 / l.length :=
            div_le_div_of_nonneg_left (by norm_num) hn hnle
        _ ≤ |(K : ℚ)| / 100 / l.length :=
            div_le_div_of_nonneg_right
              (div_le_div_of_nonneg_right h1K (by norm_num)) hn.le

/-- If the clamped coordinate is strictly positive then so is its
3-decimal rounding (using the granularity of averaged table weights). -/
theorem clamp_round3_pos (x0 : ℚ) (hd : x0 = 0 ∨ (1 / 1000 : ℚ) ≤ |x0|)
    (hpos : 0 < max (-1) (min 1 x0)) : 0 < roundTo 3 (max (-1) (min 1 x0)) := by
  have hx0pos : 0 < x0 := by
    by_contra hle
    push_neg at hle
    have : max (-1) (min 1 x0) ≤ 0 :=
      max_le (by norm_num) (le_trans (min_le_right _ _) hle)
    linarith
  have hx0c : (1 / 1000 : ℚ) ≤ x0 := by
    rcases hd with h0 | habs
    · linarith
    · rwa [abs_of_pos hx0pos] at habs
  have hcl : (1 / 1000 : ℚ) ≤ max (-1) (min 1 x0) :=
    le_max_of_le_right (le_min (by norm_num) hx0c)
  have hmono := roundTo_mono 3 hcl
  have hval := roundTo3_thousandth 1
  norm_num at hval
  rw [hval] at hmono
  linarith

/-- If the clamped coordinate is strictly negative then so is its
3-decimal rounding. -/
theorem clamp_round3_neg (x0 : ℚ) (hd : x0 = 0 ∨ (1 / 1000 : ℚ) ≤ |x0|)
    (hneg : max (-1) (min 1 x0) < 0) : roundTo 3 (max (-1) (min 1 x0)) < 0 := by
  have hx0neg : x0 < 0 := by
    by_contra hle
    push_neg at hle
    have : (0 : ℚ) ≤ max (-1) (min 1 x0) :=
      le_max_of_le_right (le_min (by norm_num) hle)
    linarith
  have hx0c : x0 ≤ -(1 / 1000 : ℚ) := by
    rcases hd with h0 | habs
    · linarith
    · rw [abs_of_neg hx0neg] at habs
      linarith
  have hcl : max (-1) (min 1 x0) ≤ -(1 / 1000 : ℚ) := by
    apply max_le (by norm_num)
    exact le_trans (min_le_right _ _) hx0c
  have hmono := roundTo_mono 3 hcl
  have hval := roundTo3_thousandth (-1)
  norm_num at hval
  rw [hval] at hmono
  linarith

/-- Core of claim C1: bounds and quadrant agreement between the clamped
pre-rounding coordinates (used by the code to pick the quadrant) and the
rounded coordinates that are returned. -/
theorem value_position_core (x0 y0 : ℚ)
    (hx : x0 = 0 ∨ (1 / 1000 : ℚ) ≤ |x0|) (hy : y0 = 0 ∨ (1 / 1000 : ℚ) ≤ |y0|) :
    (-1 ≤ roundTo 3 (max (-1) (min 1 x0)) ∧ roundTo 3 (max (-1) (min 1 x0)) ≤ 1) ∧
    (-1 ≤ roundTo 3 (max (-1) (min 1 y0)) ∧ roundTo 3 (max (-1) (min 1 y0)) ≤ 1) ∧
    (if 0 ≤ max (-1) (min 1 x0) ∧ 0 < max (-1) (min 1 y0) then "Revenue Engine"
     else if max (-1) (min 1 x0) < 0 ∧ 0 < max (-1) (min 1 y0) then "Efficiency Machine"
     else if 0 ≤ max (-1) (min 1 x0) ∧ max (-1) (min 1 y0) ≤ 0 then "Promise Zone"
     else "Danger Zone")
      = quadrantOf (roundTo 3 (max (-1) (min 1 x0))) (roundTo 3 (max (-1) (min 1 y0))) := by
  have hxlo : (-1 : ℚ) ≤ max (-1) (min 1 x0) := le_max_left _ _
  have hxhi : max (-1) (min 1 x0) ≤ 1 := max_le (by norm_num) (min_le_left _ _)
  have hylo : (-1 : ℚ) ≤ max (-1) (min 1 y0) := le_max_left _ _
  have hyhi : max (-1) (min 1 y0) ≤ 1 := max_le (by norm_num) (min_le_left _ _)
  have hb : ∀ z : ℚ, -1 ≤ z → z ≤ 1 → -1 ≤ roundTo 3 z ∧ roundTo 3 z ≤ 1 := by
    intro z h1 h2
    constructor
    · have := roundTo_mono 3 h1
      rwa [roundTo3_neg_one] at this
    · have := roundTo_mono 3 h2
      rwa [roundTo3_one] at this
  refine ⟨hb _ hxlo hxhi, hb _ hylo hyhi, ?_⟩
  unfold quadrantOf
  by_cases hxc : 0 ≤ max (-1) (min 1 x0)
  · have hrx : 0 ≤ roundTo 3 (max (-1) (min 1 x0)) := roundTo_nonneg 3 _ hxc
    by_cases hyc : 0 < max (-1) (min 1 y0)
    · have hry : 0 < roundTo 3 (max (-1) (min 1 y0)) := clamp_round3_pos y0 hy hyc
      rw [if_pos ⟨hxc, hyc⟩, if_pos ⟨hrx, hry⟩]
    · have hyc' : max (-1) (min 1 y0) ≤ 0 := not_lt.mp hyc
      have hry : roundTo 3 (max (-1) (min 1 y0)) ≤ 0 := roundTo_nonpos 3 _ hyc'
      rw [if_neg fun h => hyc h.2, if_neg fun h => absurd hxc (not_le.mpr h.1),
        if_pos ⟨hxc, hyc'⟩,
        if_neg fun h => absurd h.2 (not_lt.mpr hry),
        if_neg fun h => absurd hrx (not_le.mpr h.1),
        if_pos ⟨hrx, hry⟩]
  · have hxc' : max (-1) (min 1 x0) < 0 := not_le.mp hxc
    have hrx : roundTo 3 (max (-1) (min 1 x0)) < 0 := clamp_round3_neg x0 hx hxc'
    by_cases hyc : 0 < max (-1) (min 1 y0)
    · have hry : 0 < roundTo 3 (max (-1) (min 1 y0)) := clamp_round3_pos y0 hy hyc
      rw [if_neg fun h => hxc h.1, if_pos ⟨hxc', hyc⟩,
        if_neg fun h => absurd h.1 (not_le.mpr hrx),
        if_pos ⟨hrx, hry⟩]
    · have hyc' : max (-1) (min 1 y0) ≤ 0 := not_lt.mp hyc
      have hry : roundTo 3 (max (-1) (min 1 y0)) ≤ 0 := roundTo_nonpos 3 _ hyc'
      rw [if_neg fun h => hyc h.2, if_neg fun h => hyc h.2, if_neg fun h => hxc h.1,
        if_neg fun h => absurd h.2 (not_lt.mpr hry),
        if_neg fun h => absurd h.2 (not_lt.mpr hry),
        if_neg fun h => absurd h.1 (not_le.mpr hrx)]

/-- Claim C1: for every answer set (over the modelled static table, whose
option weights are hundredth-multiples and which has at most 10
questions), the returned x and y lie in [-1, 1] and the returned quadrant
equals the §4.2 decision table applied to the returned, clamped and
3-decimal-rounded, coordinates. -/
theorem claim_C1 (table : List M2Question) (answers : String → Option String)
    (hw : ∀ q ∈ table, ∀ o ∈ q.options,
      (∃ k : ℤ, o.xScore = (k : ℚ) / 100) ∧ (∃ k : ℤ, o.yScore = (k : ℚ) / 100))
    (hlen : table.length ≤ 10) :
    (-1 ≤ (calculate_value_position table answers).1 ∧
      (calculate_value_position table answers).1 ≤ 1) ∧
    (-1 ≤ (calculate_value_position table answers).2.1 ∧
      (calculate_value_position table answers).2.1 ≤ 1) ∧
    (calculate_value_position table answers).2.2 =
      quadrantOf (calculate_value_position table answers).1
        (calculate_value_position table answers).2.1 := by
  have hsel : ∀ o ∈ m2Selected table answers,
      (∃ k : ℤ, o.xScore = (k : ℚ) / 100) ∧ (∃ k : ℤ, o.yScore = (k : ℚ) / 100) := by
    intro o ho
    obtain ⟨q, hq, hoq⟩ := mem_m2Selected ho
    exact hw q hq o hoq
  have hslen : (m2Selected table answers).length ≤ 10 :=
    le_trans (List.length_filterMap_le _ _) hlen
  have hxd := avg_hundredths_dichotomy ((m2Selected table answers).map (·.xScore))
    (by
      intro x hx
      obtain ⟨o, ho, rfl⟩ := List.mem_map.mp hx
      exact (hsel o ho).1)
    (by rwa [List.length_map])
  have hyd := avg_hundredths_dichotomy ((m2Selected table answers).map (·.yScore))
    (by
      intro y hy
      obtain ⟨o, ho, rfl⟩ := List.mem_map.mp hy
      exact (hsel o ho).2)
    (by rwa [List.length_map])
  have core := value_position_core _ _ hxd hyd
  simp only [calculate_value_position]
  exact core

theorem claim_C1_witness :
    (-1 ≤ (calculate_value_position [⟨"m2_q1", [⟨"revenue", 1, 1/2⟩]⟩]
        (fun _ => some "revenue")).1 ∧
      (calculate_value_position [⟨"m2_q1", [⟨"revenue", 1, 1/2⟩]⟩]
        (fun _ => some "revenue")).1 ≤ 1) ∧
    (-1 ≤ (calculate_value_position [⟨"m2_q1", [⟨"revenue", 1, 1/2⟩]⟩]
        (fun _ => some "revenue")).2.1 ∧
      (calculate_value_position [⟨"m2_q1", [⟨"revenue", 1, 1/2⟩]⟩]
        (fun _ => some "revenue")).2.1 ≤ 1) ∧
    (calculate_value_position [⟨"m2_q1", [⟨"revenue", 1, 1/2⟩]⟩]
        (fun _ => some "revenue")).2.2 =
      quadrantOf (calculate_value_position [⟨"m2_q1", [⟨"revenue", 1, 1/2⟩]⟩]
          (fun _ => some "revenue")).1
        (calculate_value_position [⟨"m2_q1", [⟨"revenue", 1, 1/2⟩]⟩]
          (fun _ => some "revenue")).2.1 :=
  claim_C1 [⟨"m2_q1", [⟨"revenue", 1, 1/2⟩]⟩] (fun _ => some "revenue")
    (by
      intro q hq o ho
      simp only [List.mem_singleton] at hq
      subst hq
      simp only [List.mem_singleton] at ho
      subst ho
      exact ⟨⟨100, by norm_num⟩, ⟨50, by norm_num⟩⟩)
    (by norm_num)
